import Mathlib

/-!
Shallow embedding of the CKEditor 5 view-layer `Element`
(`src/packages/ckeditor5-engine/src/view/element.ts`) and of the bookmark
plugin's upcast matcher / data downcast (`src/unnamed/part_001`), together
with proofs about the specification claims.

Attribute values are polymorphic in the source (`string | ElementAttributeValue`,
where the structured kinds are `TokenList` and `StylesMap`); here they are a
closed variant `AttrValue`.  `TokenList`, `StylesMap`, `isPatternMatched`
(from `matcher.ts`) and `Node._remove` (from `node.ts`) are code of the
repository that is not under `src/`; their contracts are modelled from the
spec (sections 2, 3, 4.4, 4.5) and each such definition carries a doc comment
saying so.  JavaScript `Map`s are modelled as association lists in insertion
order with unique keys.
-/

namespace CkView

/-- Boolean lexicographic order on character lists, modelling the string
order used by JavaScript `Array.prototype.sort`. -/
def strLeAux : List Char → List Char → Bool
  | [], _ => true
  | _ :: _, [] => false
  | a :: as, b :: bs => if a = b then strLeAux as bs else decide (a < b)

/-- Boolean lexicographic order on strings. -/
def strLe (a b : String) : Bool := strLeAux a.data b.data

/-- Sorting a list of strings, modelling JavaScript `Array.prototype.sort()`
on strings. -/
def sortStrings (l : List String) : List String :=
  l.insertionSort (fun a b => strLe a b = true)

/-- Character-level splitter on runs of whitespace, accumulating the
current fragment in reverse. -/
def splitWsAux : List Char → List Char → List String
  | [], cur => if cur.isEmpty then [] else [String.mk cur.reverse]
  | c :: cs, cur =>
    if c.isWhitespace then
      (if cur.isEmpty then [] else [String.mk cur.reverse]) ++ splitWsAux cs []
    else splitWsAux cs (c :: cur)

/-- Splitting a string on runs of whitespace, modelling JavaScript
`str.split( /\s+/ )` as used for token lists (empty fragments dropped;
the JS original can keep one leading empty fragment, which never denotes
a token). -/
def splitWs (s : String) : List String := splitWsAux s.data []

/-- Character-level splitter on a separator character, keeping empty
fragments, modelling JavaScript `str.split( sep )`. -/
def splitCharAux (sep : Char) : List Char → List Char → List String
  | [], cur => [String.mk cur.reverse]
  | c :: cs, cur =>
    if c == sep then String.mk cur.reverse :: splitCharAux sep cs []
    else splitCharAux sep cs (c :: cur)

/-- Splitting a string on a separator character. -/
def splitChar (sep : Char) (s : String) : List String := splitCharAux sep s.data []

/-- Whitespace trimming, modelling JavaScript `str.trim()`. -/
def trimStr (s : String) : String :=
  String.mk (((s.data.dropWhile Char.isWhitespace).reverse.dropWhile Char.isWhitespace).reverse)

/-- First-occurrence deduplication, modelling the set semantics of the
`TokenList` store (a JS `Set` keeps the first insertion of each token). -/
def dedupAcc (seen : List String) : List String → List String
  | [] => []
  | t :: ts => if t ∈ seen then dedupAcc seen ts else t :: dedupAcc (t :: seen) ts

/-- Attribute value: a plain string or one of the two structured kinds
(`TokenList` for `class` and anchor `rel`, `StylesMap` for `style`),
as a closed variant (spec section 9). -/
inductive AttrValue where
  | str (s : String)
  | tokens (ts : List String)
  | styles (ss : List (String × String))
deriving DecidableEq, Repr

/-- Association-list lookup, modelling JS `Map.prototype.get`. -/
def mapGet {α : Type} (m : List (String × α)) (key : String) : Option α :=
  (m.find? (fun p => p.1 == key)).map (fun p => p.2)

/-- Association-list insertion, modelling JS `Map.prototype.set`: an existing
key keeps its position, a new key is appended. -/
def mapSet {α : Type} (m : List (String × α)) (key : String) (v : α) : List (String × α) :=
  if m.any (fun p => p.1 == key) then
    m.map (fun p => if p.1 == key then (key, v) else p)
  else
    m ++ [(key, v)]

/-- Association-list deletion, modelling JS `Map.prototype.delete`; returns
whether the key was present together with the new map. -/
def mapDelete {α : Type} (m : List (String × α)) (key : String) : Bool × List (String × α) :=
  (m.any (fun p => p.1 == key), m.filter (fun p => p.1 != key))

/-- Modelled from the spec: `StylesMap#setTo` parses a CSS declaration string
into property/value entries (spec section 3: a normalized key-value store
for CSS declarations; shorthand expansion is out of scope). -/
def parseStyles (s : String) : List (String × String) :=
  (splitChar ';' s).filterMap fun decl =>
    match splitChar ':' decl with
    | [k, v] => if trimStr k = "" then none else some (trimStr k, trimStr v)
    | _ => none

/-- Modelled from the spec: `StylesMap#toString` renders the declarations in
their canonical (sorted) string form, as in the `getIdentity` documentation
example where styles appear alphabetically sorted. -/
def stylesToString (ss : List (String × String)) : String :=
  String.intercalate ";" (sortStrings (ss.map fun p => p.1 ++ ":" ++ p.2))

/-- String form of an attribute value, modelling JS `String( value )`:
a `TokenList` joins its tokens with spaces, a `StylesMap` renders its
canonical string form. -/
def attrToString : AttrValue → String
  | .str s => s
  | .tokens ts => String.intercalate " " ts
  | .styles ss => stylesToString ss

/-- Modelled from the spec: `TokenList#setTo` parses a whitespace-separated
token string into an ordered, unique collection (spec glossary). -/
def tokensSetTo (s : String) : List String := dedupAcc [] (splitWs s)

/-- Modelled from the spec: the structured values' `has( token )` membership
test (`TokenList` token membership, `StylesMap` property presence);
a plain string has no tokens. -/
def valHas (v : AttrValue) (t : String) : Bool :=
  match v with
  | .str _ => false
  | .tokens ts => ts.contains t
  | .styles ss => ss.any (fun p => p.1 == t)

/-- Modelled from the spec: the structured values' `keys()` (token names,
style property names). -/
def valKeys : AttrValue → List String
  | .str _ => []
  | .tokens ts => ts
  | .styles ss => ss.map (fun p => p.1)

/-- Modelled from the spec: the structured values' `remove( tokens )` —
removes the named tokens from a `TokenList` or the named properties from
a `StylesMap`.  On a plain string the source would never reach this
operation (the element dispatches on the structured kinds first). -/
def valRemove (v : AttrValue) (toks : List String) : AttrValue :=
  match v with
  | .str s => .str s
  | .tokens ts => .tokens (ts.filter (fun t => !toks.contains t))
  | .styles ss => .styles (ss.filter (fun p => !toks.contains p.1))

/-- Modelled from the spec: the structured values' `isEmpty`. -/
def valIsEmpty : AttrValue → Bool
  | .str _ => false
  | .tokens ts => ts.isEmpty
  | .styles ss => ss.isEmpty

/-- Modelled from the spec: `setTo( String( value ) )` on a freshly created
or existing structured value of the kind selected by the attribute key. -/
def valSetTo (isStyles : Bool) (s : String) : AttrValue :=
  if isStyles then .styles (parseStyles s) else .tokens (tokensSetTo s)

/-- Modelled from the spec: the structured values' `mergeFrom( other )` —
token union keeping first occurrences, style-map update. -/
def valMergeFrom (v other : AttrValue) : AttrValue :=
  match v, other with
  | .tokens ts, .tokens us => .tokens (dedupAcc [] (ts ++ us))
  | .styles ss, .styles us => .styles (us.foldl (fun acc p => mapSet acc p.1 p.2) ss)
  | _, _ => v

/-- Modelled from the spec: the structured values' `canMergeFrom( other )`
(token lists always merge; style maps merge when no shared property has a
conflicting value). -/
def valCanMergeFrom (v other : AttrValue) : Bool :=
  match v, other with
  | .tokens _, .tokens _ => true
  | .styles ss, .styles us =>
    us.all fun p =>
      match mapGet ss p.1 with
      | none => true
      | some w => w == p.2
  | _, _ => false

/-- Modelled from the spec: the structured values' `isMatching( other )`
(every token / property-value entry of `other` is present here). -/
def valIsMatching (v other : AttrValue) : Bool :=
  match v, other with
  | .tokens ts, .tokens us => us.all (fun t => ts.contains t)
  | .styles ss, .styles us => us.all (fun p => mapGet ss p.1 == some p.2)
  | _, _ => false

/-- Modelled from the spec: the structured values' `isSimilar( other )`.
The spec only fixes its contract indirectly: two elements that are
`isSimilar` must produce identical identity strings (spec sections 4.4
and 8), and a token set is an ordered collection (glossary), so structured
similarity is equality of the stored contents. -/
def valIsSimilar (v other : AttrValue) : Bool :=
  match v, other with
  | .tokens ts, .tokens us => ts == us
  | .styles ss, .styles us => ss == us
  | _, _ => false

/-- Change-notification kinds fired to the owning document
(`_fireChange( 'attributes' | 'children', this )`). -/
inductive ChangeKind where
  | attributes
  | children
deriving DecidableEq, Repr

/-- Child node of a view element: object identity (`nid`) plus the parent
back-reference (`parent`, the `eid` of the owning element or `none`).
Children of other kinds than elements behave identically for the
operations modelled here. -/
structure VNode where
  nid : Nat
  parent : Option Nat
deriving DecidableEq, Repr

/-- View element: name, attribute map (insertion-ordered association list
with unique keys, modelling the private `_attrs` JS `Map`), children and
an object identity `eid` for parent back-references. -/
structure Element where
  name : String
  attrs : List (String × AttrValue)
  children : List VNode
  eid : Nat
deriving DecidableEq, Repr

/-- Dispatch predicate from the source: `key == 'class' || elementName == 'a' && key == 'rel'`. -/
def usesTokenList (elementName key : String) : Bool :=
  key == "class" || (elementName == "a" && key == "rel")

/-- Dispatch predicate from the source: `key == 'style'`. -/
def usesStylesMap (elementName key : String) : Bool :=
  key == "style"

/-- Raw attribute value as handed to the `Element` constructor: `null`,
a string, or an already-structured `TokenList` / `StylesMap` instance. -/
inductive Raw where
  | rnull
  | rstr (s : String)
  | rtok (ts : List String)
  | rsty (ss : List (String × String))
deriving DecidableEq, Repr

/-- String coercion of a raw constructor value (JS `String( value )`). -/
def rawToString : Raw → String
  | .rnull => "null"
  | .rstr s => s
  | .rtok ts => String.intercalate " " ts
  | .rsty ss => stylesToString ss

/-- Modelled from the spec: `toMap` from `ckeditor5-utils` normalizes the
constructor's attribute collection to a `Map`; later duplicates of a key
overwrite earlier ones. -/
def toMapRaw (attrs : List (String × Raw)) : List (String × Raw) :=
  attrs.foldl (fun acc p => mapSet acc p.1 p.2) []

/-- One step of `_parseAttributes`: `null` deletes the key, keys that use a
structured kind get a deep copy of a passed structured instance or a value
parsed from the string form, and every other value is coerced to a string. -/
def parseStep (name : String) (p : String × Raw) : Option (String × AttrValue) :=
  match p.2 with
  | .rnull => none
  | v =>
    if usesStylesMap name p.1 then
      some (p.1, .styles (match v with | .rsty ss => ss | _ => parseStyles (rawToString v)))
    else if usesTokenList name p.1 then
      some (p.1, .tokens (match v with | .rtok ts => ts | _ => tokensSetTo (rawToString v)))
    else
      some (p.1, .str (rawToString v))

/-- `_parseAttributes` from the source: normalize the constructor attributes
to the internal map, dropping `null` values and dispatching the structured
kinds by `(element name, attribute key)`. -/
def parseAttributes (name : String) (attrs : List (String × Raw)) : List (String × AttrValue) :=
  (toMapRaw attrs).filterMap (parseStep name)

/-- Element construction (`new Element( document, name, attrs, children )`),
with children already normalized nodes and reparented by `_insertChild`;
here only the attribute normalization matters, the callers below pass
detached children directly. -/
def mkElement (name : String) (attrs : List (String × Raw)) (children : List VNode) (eid : Nat) : Element :=
  { name := name, attrs := parseAttributes name attrs, children := children, eid := eid }

/-- `getAttributeKeys` from the source: yields `class` first when present,
then `style` when present, then the remaining keys in storage order. -/
def getAttributeKeys (e : Element) : List String :=
  (if (mapGet e.attrs "class").isSome then ["class"] else []) ++
  (if (mapGet e.attrs "style").isSome then ["style"] else []) ++
  ((e.attrs.map (fun p => p.1)).filter (fun k => k ≠ "class" && k ≠ "style"))

/-- `getAttribute` from the source: the string form of the stored value, or
absent. -/
def getAttribute (e : Element) (key : String) : Option String :=
  (mapGet e.attrs key).map attrToString

/-- `hasAttribute( key )` without a token: plain existence check. -/
def hasAttributeB (e : Element) (key : String) : Bool :=
  (mapGet e.attrs key).isSome

/-- `hasAttribute( key, token? )` from the source: with a token and a
structured key it delegates to the structured value's membership test,
otherwise it is strict equality of the stored value with the token. -/
def hasAttribute (e : Element) (key : String) (token : Option String) : Bool :=
  if !(hasAttributeB e key) then false
  else
    match token with
    | none => true
    | some t =>
      if usesStylesMap e.name key || usesTokenList e.name key then
        match mapGet e.attrs key with
        | some v => valHas v t
        | none => false
      else
        match mapGet e.attrs key with
        | some (.str s) => s == t
        | _ => false

/-- `hasClass( ...className )` from the source: every given name must be a
member of the `class` token list. -/
def hasClass (e : Element) (classNames : List String) : Bool :=
  classNames.all fun n =>
    match mapGet e.attrs "class" with
    | some v => valHas v n
    | none => false

/-- `hasStyle( ...property )` from the source: every given property must be
present in the `style` map. -/
def hasStyle (e : Element) (properties : List String) : Bool :=
  properties.all fun n =>
    match mapGet e.attrs "style" with
    | some v => valHas v n
    | none => false

/-- Per-attribute comparison step shared by `isSimilar`,
`_canMergeAttributesFrom` and `_hasAttributesMatching`: when either side is
a plain string the source compares with strict equality (a string and a
structured object are never strictly equal), otherwise it delegates to the
structured values' own comparison `k`. -/
def plainOrMixed (v w : AttrValue) (k : AttrValue → AttrValue → Bool) : Bool :=
  match v, w with
  | .str s, .str t => s == t
  | .str _, _ => false
  | _, .str _ => false
  | v, w => k v w

/-- `isSimilar` from the source: same name, same attribute-map size, and
every attribute equal as strings or mutually similar as structured values.
The source's object-identity short-circuit is subsumed by the structural
comparison in this value embedding. -/
def isSimilar (a b : Element) : Bool :=
  a.name == b.name &&
  a.attrs.length == b.attrs.length &&
  a.attrs.all fun p =>
    match mapGet b.attrs p.1 with
    | none => false
    | some w => plainOrMixed p.2 w valIsSimilar

/-- `_canMergeAttributesFrom` from the source: same name; an attribute of
`other` missing here is ignored, a present one must be string-equal or
satisfy the structured `canMergeFrom`. -/
def canMergeAttributesFrom (a b : Element) : Bool :=
  a.name == b.name &&
  b.attrs.all fun p =>
    match mapGet a.attrs p.1 with
    | none => true
    | some v => plainOrMixed v p.2 valCanMergeFrom

/-- `_hasAttributesMatching` from the source: same name; every attribute of
`other` must be present here, string-equal or satisfying the structured
`isMatching`; a missing key is a hard mismatch. -/
def hasAttributesMatching (a b : Element) : Bool :=
  a.name == b.name &&
  b.attrs.all fun p =>
    match mapGet a.attrs p.1 with
    | none => false
    | some v => plainOrMixed v p.2 valIsMatching

/-- `getIdentity` from the source: canonical string made of the name, the
lexicographically sorted classes, the canonical style string and the
remaining attributes rendered and sorted. -/
def getIdentity (e : Element) : String :=
  let classes :=
    match mapGet e.attrs "class" with
    | some (.tokens ts) => String.intercalate "," (sortStrings ts)
    | _ => ""
  let styles :=
    match mapGet e.attrs "style" with
    | some (.styles ss) => stylesToString ss
    | _ => ""
  let attributes := String.intercalate " " (sortStrings
    ((e.attrs.filter (fun p => p.1 ≠ "class" && p.1 ≠ "style")).map
      (fun p => p.1 ++ "=\"" ++ attrToString p.2 ++ "\"")))
  e.name ++
    (if classes = "" then "" else " class=\"" ++ classes ++ "\"") ++
    (if styles = "" then "" else " style=\"" ++ styles ++ "\"") ++
    (if attributes = "" then "" else " " ++ attributes)

/-- Value argument of `_setAttribute`: either a value (plain or structured,
JS `unknown`) or a `[ property, value ]` pair as passed by `_setStyle`. -/
inductive SetValue where
  | sval (v : AttrValue)
  | spair (p : String) (v : String)
deriving DecidableEq, Repr

/-- String coercion of a `SetValue` (a JS array interpolates as its
comma-joined elements). -/
def setValueToString : SetValue → String
  | .sval v => attrToString v
  | .spair p v => p ++ "," ++ v

/-- Update of a structured value by `_setAttribute`: `reset` replaces the
contents wholesale from the string form, otherwise the source merges — a
`[ property, value ]` pair or styles object into a `StylesMap`, a token or
token list into a `TokenList` (a lone string split on whitespace). -/
def setStructured (isStyles reset : Bool) (current : AttrValue) (value : SetValue) : AttrValue :=
  if reset then valSetTo isStyles (setValueToString value)
  else if isStyles then
    match value with
    | .spair p v => valMergeFrom current (.styles [(p, v)])
    | .sval (.styles us) => valMergeFrom current (.styles us)
    | .sval w => valMergeFrom current (.styles (parseStyles (attrToString w)))
  else
    match value with
    | .sval (.str s) => valMergeFrom current (.tokens (splitWs s))
    | .sval (.tokens ts) => valMergeFrom current (.tokens ts)
    | .sval (.styles _) => current
    | .spair p v => valMergeFrom current (.tokens [p, v])

/-- `_setAttribute` from the source: fires an `attributes` change, then for a
structured key creates or updates the structured value (replacing or
merging per `reset`), and for a plain key stores the string form. -/
def setAttribute (e : Element) (key : String) (value : SetValue) (reset : Bool) :
    Element × List ChangeKind :=
  if usesStylesMap e.name key || usesTokenList e.name key then
    let current :=
      match mapGet e.attrs key with
      | some v => v
      | none => if usesStylesMap e.name key then .styles [] else .tokens []
    let newVal := setStructured (usesStylesMap e.name key) reset current value
    ({ e with attrs := mapSet e.attrs key newVal }, [ChangeKind.attributes])
  else
    ({ e with attrs := mapSet e.attrs key (.str (setValueToString value)) }, [ChangeKind.attributes])

/-- Token argument of `_removeAttribute` (JS `ArrayOrItem<string>`). -/
inductive ArrOrItem where
  | one (s : String)
  | many (l : List String)
deriving DecidableEq, Repr

/-- Normalization of the `tokens` argument of `_removeAttribute`: for a
token-list key a lone string is split on whitespace, otherwise a lone
string is a one-element list. -/
def removeTokensArg (name key : String) (toks : ArrOrItem) : List String :=
  match toks with
  | .one s => if usesTokenList name key then splitWs s else [s]
  | .many l => l

/-- `_removeAttribute` from the source: fires an `attributes` change first;
with tokens and a structured key it removes the named tokens from a present
structured value and deletes the key only when the value becomes empty;
otherwise it deletes the whole key; returns whether the map entry was
deleted. -/
def removeAttribute (e : Element) (key : String) (tokens : Option ArrOrItem) :
    Bool × Element × List ChangeKind :=
  match tokens with
  | some toks =>
    if usesStylesMap e.name key || usesTokenList e.name key then
      match mapGet e.attrs key with
      | none => (false, e, [ChangeKind.attributes])
      | some current =>
        let newVal := valRemove current (removeTokensArg e.name key toks)
        if valIsEmpty newVal then
          let d := mapDelete e.attrs key
          (d.1, { e with attrs := d.2 }, [ChangeKind.attributes])
        else
          (false, { e with attrs := mapSet e.attrs key newVal }, [ChangeKind.attributes])
    else
      let d := mapDelete e.attrs key
      (d.1, { e with attrs := d.2 }, [ChangeKind.attributes])
  | none =>
    let d := mapDelete e.attrs key
    (d.1, { e with attrs := d.2 }, [ChangeKind.attributes])

/-- One iteration of the `_mergeAttributesFrom` loop for an attribute of
`other`: a missing, plain or mixed value goes through `_setAttribute`
(which fires its own `attributes` change), a structured pair merges in
place. -/
def mergeStep (st : Element × List ChangeKind) (p : String × AttrValue) :
    Element × List ChangeKind :=
  match mapGet st.1.attrs p.1 with
  | none =>
    let r := setAttribute st.1 p.1 (.sval p.2) true
    (r.1, st.2 ++ r.2)
  | some v =>
    match v, p.2 with
    | .str _, _ =>
      let r := setAttribute st.1 p.1 (.sval p.2) true
      (r.1, st.2 ++ r.2)
    | _, .str _ =>
      let r := setAttribute st.1 p.1 (.sval p.2) true
      (r.1, st.2 ++ r.2)
    | v, w => ({ st.1 with attrs := mapSet st.1.attrs p.1 (valMergeFrom v w) }, st.2)

/-- `_mergeAttributesFrom` from the source: runs `_canMergeAttributesFrom`
first and returns `false` untouched when it fails; otherwise fires an
`attributes` change and merges every attribute of `other` in. -/
def mergeAttributesFrom (a b : Element) : Bool × Element × List ChangeKind :=
  if !(canMergeAttributesFrom a b) then (false, a, [])
  else
    let res := b.attrs.foldl mergeStep (a, [ChangeKind.attributes])
    (true, res.1, res.2)

/-- One iteration of the `_subtractAttributesOf` loop for an attribute of
`other`: plain or mixed keys are deleted outright, structured values lose
`other`'s tokens and the key is deleted when the value becomes empty. -/
def subtractStep (cur : Element) (p : String × AttrValue) : Element :=
  match mapGet cur.attrs p.1 with
  | none => cur
  | some v =>
    match v, p.2 with
    | .str _, _ => { cur with attrs := (mapDelete cur.attrs p.1).2 }
    | _, .str _ => { cur with attrs := (mapDelete cur.attrs p.1).2 }
    | v, w =>
      let v' := valRemove v (valKeys w)
      if valIsEmpty v' then { cur with attrs := (mapDelete cur.attrs p.1).2 }
      else { cur with attrs := mapSet cur.attrs p.1 v' }

/-- `_subtractAttributesOf` from the source: runs `_hasAttributesMatching`
first and returns `false` untouched when it fails; otherwise fires an
`attributes` change and removes `other`'s attributes. -/
def subtractAttributesOf (a b : Element) : Bool × Element × List ChangeKind :=
  if !(hasAttributesMatching a b) then (false, a, [])
  else
    (true, b.attrs.foldl subtractStep a, [ChangeKind.attributes])

/-- JS `Array.prototype.splice( i, 0, n )`: inserts at position `i`,
appending when `i` exceeds the length. -/
def jsSpliceInsert (cs : List VNode) (i : Nat) (n : VNode) : List VNode :=
  cs.take i ++ [n] ++ cs.drop i

/-- Parent-pointer update of a child node (`node.parent = ...`). -/
def setParent (pid : Option Nat) (n : VNode) : VNode := { n with parent := pid }

/-- Insertion loop of `_insertChild`.  Modelled from the spec for the part
outside `src/`: `node._remove()` detaches a node from its prior parent
(spec section 4.3); only detachment from this very element is visible in
its own child list, removal from another element leaves it untouched. -/
def insertLoop (eid : Nat) (cs : List VNode) (idx count : Nat) :
    List VNode → List VNode × Nat × Nat
  | [] => (cs, idx, count)
  | n :: rest =>
    let cs₁ := if n.parent == some eid then cs.filter (fun c => c.nid ≠ n.nid) else cs
    insertLoop eid (jsSpliceInsert cs₁ idx (setParent (some eid) n)) (idx + 1) (count + 1) rest

/-- `_insertChild` from the source: fires a `children` change, then for each
item detaches it from any prior parent, reparents it to this element and
splices it in at the running index; returns the number inserted. -/
def insertChild (e : Element) (index : Nat) (items : List VNode) :
    Nat × Element × List ChangeKind :=
  let r := insertLoop e.eid e.children index 0 items
  (r.2.2, { e with children := r.1 }, [ChangeKind.children])

/-- `_removeChildren` from the source: fires a `children` change, nulls the
parent pointer of each node in the removed range (exactly the slice the
subsequent splice removes and returns), splices the range out and returns
it.  (The source crashes on an out-of-range index; the theorems below only
use valid ranges.) -/
def removeChildren (e : Element) (index howMany : Nat) :
    List VNode × Element × List ChangeKind :=
  (((e.children.drop index).take howMany).map (setParent none),
   { e with children := e.children.take index ++ e.children.drop (index + howMany) },
   [ChangeKind.children])

/-- Property pattern as consumed by `isPatternMatched` in `matcher.ts`:
`true`, an exact string, or a regular expression (modelled as its decision
function on strings, tagged so that `instanceof RegExp` is expressible). -/
inductive Pattern where
  | pTrue
  | pStr (s : String)
  | pRegex (f : String → Bool)

/-- Modelled from the spec: `isPatternMatched` from `matcher.ts` — `true`
matches everything, a string matches by equality, a regular expression by
testing the string (spec section 4.5). -/
def isPatternMatched : Pattern → String → Bool
  | .pTrue, _ => true
  | .pStr s, x => s == x
  | .pRegex f, x => f x

/-- The `patternKey instanceof RegExp` test from the source. -/
def Pattern.isRegExp : Pattern → Bool
  | .pRegex _ => true
  | _ => false

/-- Modelled from the spec: the structured values' `_getTokensMatch` — the
`(key, token)` pairs whose token (and, for styles, value) matches the given
patterns, or no match when no token matches (spec section 4.5). -/
def getTokensMatch (v : AttrValue) (attributeKey : String)
    (patternToken patternValue : Pattern) : Option (List (String × Option String)) :=
  match v with
  | .str _ => none
  | .tokens ts =>
    let m := ts.filter (isPatternMatched patternToken)
    if m.isEmpty then none else some (m.map (fun t => (attributeKey, some t)))
  | .styles ss =>
    let m := ss.filter (fun p => isPatternMatched patternToken p.1 && isPatternMatched patternValue p.2)
    if m.isEmpty then none else some (m.map (fun p => (attributeKey, some p.1)))

/-- Inner attribute scan of `_getAttributesMatch` for one pattern triple:
excluded or key-mismatched attributes are skipped; a value match records
the entry and sets `hasValue`; a key match without a value match aborts the
whole call immediately unless the key pattern is a regular expression. -/
def attrsMatchLoop (patternKey patternToken : Pattern) (patternValue : Option Pattern)
    (excl : List String) (hasKey hasValue : Bool) (acc : List (String × Option String)) :
    List (String × AttrValue) → Option (Bool × Bool × List (String × Option String))
  | [] => some (hasKey, hasValue, acc)
  | (key, value) :: rest =>
    if excl.contains key || !(isPatternMatched patternKey key) then
      attrsMatchLoop patternKey patternToken patternValue excl hasKey hasValue acc rest
    else
      match value with
      | .str s =>
        if isPatternMatched patternToken s then
          attrsMatchLoop patternKey patternToken patternValue excl true true (acc ++ [(key, none)]) rest
        else if !(patternKey.isRegExp) then none
        else attrsMatchLoop patternKey patternToken patternValue excl true hasValue acc rest
      | v =>
        match getTokensMatch v key patternToken (patternValue.getD Pattern.pTrue) with
        | some tm => attrsMatchLoop patternKey patternToken patternValue excl true true (acc ++ tm) rest
        | none =>
          if !(patternKey.isRegExp) then none
          else attrsMatchLoop patternKey patternToken patternValue excl true hasValue acc rest

/-- Outer pattern loop of `_getAttributesMatch`: after scanning the
attributes for one pattern, the call fails unless some key matched and
some value matched; matched entries accumulate across patterns. -/
def getAttributesMatchGo (attrs : List (String × AttrValue)) (excl : List String)
    (acc : List (String × Option String)) :
    List (Pattern × Pattern × Option Pattern) → Option (List (String × Option String))
  | [] => some acc
  | (pk, pt, pv) :: rest =>
    match attrsMatchLoop pk pt pv excl false false acc attrs with
    | none => none
    | some r => if !r.1 || !r.2.1 then none else getAttributesMatchGo attrs excl r.2.2 rest

/-- `_getAttributesMatch` from the source. -/
def getAttributesMatch (e : Element) (patterns : List (Pattern × Pattern × Option Pattern))
    (excl : List String) : Option (List (String × Option String)) :=
  getAttributesMatchGo e.attrs excl [] patterns

/-- Result shape of the bookmark upcast matcher,
`{ name: true, attributes: [ 'id' ] }`. -/
structure UpcastMatch where
  matchedName : Bool
  attributes : List String
deriving DecidableEq, Repr

/-- `upcastMatcher` from the bookmark plugin: accepts an anchor with an `id`
attribute, no `href` attribute and — in the data pipeline only — no
children. -/
def upcastMatcher (element : Element) (dataPipeline : Bool) : Option UpcastMatch :=
  let isAnchorElement := element.name == "a"
  if !isAnchorElement then none
  else
    let hasIdAttribute := hasAttributeB element "id"
    let hasHrefAttribute := hasAttributeB element "href"
    let isEmptyEl := element.children.isEmpty
    if !hasIdAttribute || hasHrefAttribute || (dataPipeline && !isEmptyEl) then none
    else some { matchedName := true, attributes := ["id"] }

/-- Data downcast of a bookmark model element from the plugin:
`writer.createEmptyElement( 'a', { id: bookmarkId } )`.  Modelled from the
spec for the writer part outside `src/`: the construction interface creates
an element of the given name and attributes with no children (spec
section 6). -/
def dataDowncastBookmarkView (bookmarkId : String) : Element :=
  mkElement "a" [("id", .rstr bookmarkId)] [] 0

/-- Structured-kind well-formedness of one stored attribute: a key
dispatched to `StylesMap` holds a styles value, a key dispatched to
`TokenList` holds a token value.  The `Element` constructor establishes
this invariant (spec section 3). -/
def kindOkB (name : String) (p : String × AttrValue) : Bool :=
  if usesStylesMap name p.1 then
    match p.2 with
    | .styles _ => true
    | _ => false
  else if usesTokenList name p.1 then
    match p.2 with
    | .tokens _ => true
    | _ => false
  else true

/-- Structured-kind well-formedness of a whole element. -/
def KindOk (e : Element) : Bool := e.attrs.all (kindOkB e.name)

/-- Key-hit predicate for one attribute against a key pattern: not
excluded and key matched (`hasKey` is set in the scan exactly for these
attributes). -/
def attrKeyHit (pk : Pattern) (excl : List String) (p : String × AttrValue) : Bool :=
  !(excl.contains p.1) && isPatternMatched pk p.1

/-- Full-match predicate for one attribute against a pattern triple: key
hit and value/token matched (`hasValue` is set in the scan exactly for
these attributes). -/
def attrFullMatch (pk pt : Pattern) (pv : Option Pattern) (excl : List String)
    (p : String × AttrValue) : Bool :=
  attrKeyHit pk excl p &&
    (match p.2 with
     | .str s => isPatternMatched pt s
     | v => (getTokensMatch v p.1 pt (pv.getD Pattern.pTrue)).isSome)

/-! Order lemmas for the string sort. -/

theorem strLeAux_trans : ∀ as bs cs, strLeAux as bs = true → strLeAux bs cs = true →
    strLeAux as cs = true := by
  intro as
  induction as with
  | nil => intro bs cs _ _; rfl
  | cons a as ih =>
    intro bs cs h1 h2
    cases bs with
    | nil => simp [strLeAux] at h1
    | cons b bs =>
      cases cs with
      | nil => simp [strLeAux] at h2
      | cons c cs =>
        unfold strLeAux at h1 h2 ⊢
        by_cases hab : a = b
        · subst hab
          rw [if_pos rfl] at h1
          by_cases hac : a = c
          · subst hac
            rw [if_pos rfl] at h2 ⊢
            exact ih bs cs h1 h2
          · rw [if_neg hac] at h2 ⊢
            exact h2
        · rw [if_neg hab] at h1
          have hlt1 : a < b := of_decide_eq_true h1
          by_cases hbc : b = c
          · subst hbc
            rw [if_neg hab]
            exact h1
          · rw [if_neg hbc] at h2
            have hlt2 : b < c := of_decide_eq_true h2
            have hlt : a < c := lt_trans hlt1 hlt2
            rw [if_neg (ne_of_lt hlt)]
            exact decide_eq_true hlt

theorem strLeAux_total : ∀ as bs, strLeAux as bs = true ∨ strLeAux bs as = true := by
  intro as
  induction as with
  | nil => intro bs; left; rfl
  | cons a as ih =>
    intro bs
    cases bs with
    | nil => right; rfl
    | cons b bs =>
      unfold strLeAux
      by_cases hab : a = b
      · subst hab
        rw [if_pos rfl, if_pos rfl]
        exact ih bs
      · rw [if_neg hab, if_neg (Ne.symm hab)]
        rcases lt_or_gt_of_ne hab with h | h
        · left; exact decide_eq_true h
        · right; exact decide_eq_true h

theorem strLeAux_antisymm : ∀ as bs, strLeAux as bs = true → strLeAux bs as = true →
    as = bs := by
  intro as
  induction as with
  | nil =>
    intro bs _ h2
    cases bs with
    | nil => rfl
    | cons b bs => simp [strLeAux] at h2
  | cons a as ih =>
    intro bs h1 h2
    cases bs with
    | nil => simp [strLeAux] at h1
    | cons b bs =>
      unfold strLeAux at h1 h2
      by_cases hab : a = b
      · subst hab
        rw [if_pos rfl] at h1 h2
        rw [ih bs h1 h2]
      · rw [if_neg hab] at h1
        rw [if_neg (Ne.symm hab)] at h2
        exact absurd (of_decide_eq_true h2) (lt_asymm (of_decide_eq_true h1))

theorem sortStrings_perm_eq {l₁ l₂ : List String} (h : l₁.Perm l₂) :
    sortStrings l₁ = sortStrings l₂ := by
  haveI : IsAntisymm String (fun a b => strLe a b = true) :=
    ⟨fun a b h1 h2 => by
      have h3 := strLeAux_antisymm a.data b.data h1 h2
      cases a
      cases b
      exact congrArg String.mk (by simpa using h3)⟩
  haveI : IsTotal String (fun a b => strLe a b = true) :=
    ⟨fun a b => strLeAux_total a.data b.data⟩
  haveI : IsTrans String (fun a b => strLe a b = true) :=
    ⟨fun a b c => strLeAux_trans a.data b.data c.data⟩
  apply List.eq_of_perm_of_sorted (r := fun a b => strLe a b = true)
  · exact (List.perm_insertionSort _ l₁).trans (h.trans (List.perm_insertionSort _ l₂).symm)
  · exact List.sorted_insertionSort _ l₁
  · exact List.sorted_insertionSort _ l₂

/-! Lemmas about the association-list model of JS `Map`. -/

theorem mapGet_cons {α : Type} (p : String × α) (m : List (String × α)) (k : String) :
    mapGet (p :: m) k = if p.1 == k then some p.2 else mapGet m k := by
  by_cases h : (p.1 == k) = true
  · rw [if_pos h]
    unfold mapGet
    rw [@List.find?_cons_of_pos (String × α) (fun q => q.1 == k) p m h]
    rfl
  · rw [if_neg h]
    unfold mapGet
    rw [@List.find?_cons_of_neg (String × α) (fun q => q.1 == k) p m h]

theorem mapGet_isSome_iff {α : Type} {m : List (String × α)} {k : String} :
    (mapGet m k).isSome = true ↔ k ∈ m.map (fun p => p.1) := by
  induction m with
  | nil => simp [mapGet]
  | cons p rest ih =>
    rw [mapGet_cons]
    by_cases h : p.1 = k
    · simp [h]
    · simp [h, beq_iff_eq, ih, Ne.symm h]

theorem mapGet_eq_none_iff {α : Type} {m : List (String × α)} {k : String} :
    mapGet m k = none ↔ k ∉ m.map (fun p => p.1) := by
  constructor
  · intro h hk
    have h2 := mapGet_isSome_iff.mpr hk
    rw [h] at h2
    simp at h2
  · intro hk
    cases ho : mapGet m k with
    | none => rfl
    | some v => exact absurd (mapGet_isSome_iff.mp (by simp [ho])) hk

theorem mapGet_mem {α : Type} {m : List (String × α)} {k : String} {v : α}
    (h : mapGet m k = some v) : (k, v) ∈ m := by
  induction m with
  | nil => simp [mapGet] at h
  | cons p rest ih =>
    rw [mapGet_cons] at h
    by_cases hp : (p.1 == k) = true
    · rw [if_pos hp] at h
      have h2 : (k, v) = p := by
        obtain ⟨a, b⟩ := p
        simp only [beq_iff_eq] at hp
        simp only [Option.some_inj] at h
        simp only [Prod.mk.injEq]
        exact ⟨hp.symm, h.symm⟩
      rw [h2]
      exact List.mem_cons_self _ _
    · rw [if_neg hp] at h
      exact List.mem_cons_of_mem p (ih h)

theorem mapGet_of_mem {α : Type} {m : List (String × α)}
    (hn : (m.map (fun p => p.1)).Nodup) {k : String} {v : α}
    (h : (k, v) ∈ m) : mapGet m k = some v := by
  induction m with
  | nil => simp at h
  | cons p rest ih =>
    rw [mapGet_cons]
    rcases List.mem_cons.mp h with h1 | h1
    · simp [← h1]
    · have hk : k ∈ rest.map (fun p => p.1) := List.mem_map.mpr ⟨(k, v), h1, rfl⟩
      rw [List.map_cons] at hn
      have hp : p.1 ≠ k := by
        intro hpk
        have hm : p.1 ∈ rest.map (fun p => p.1) := by rw [hpk]; exact hk
        exact (List.nodup_cons.mp hn).1 hm
      simp [hp, beq_iff_eq]
      exact ih (List.nodup_cons.mp hn).2 h1

theorem mapGet_replace_self {α : Type} (m : List (String × α)) (k : String) (v : α)
    (hany : m.any (fun p => p.1 == k) = true) :
    mapGet (m.map (fun p => if p.1 == k then (k, v) else p)) k = some v := by
  induction m with
  | nil => simp at hany
  | cons p rest ih =>
    rw [List.map_cons]
    by_cases hp : (p.1 == k) = true
    · rw [if_pos hp, mapGet_cons]
      simp
    · rw [if_neg hp, mapGet_cons, if_neg hp]
      apply ih
      rcases List.any_eq_true.mp hany with ⟨q, hq, hqk⟩
      rcases List.mem_cons.mp hq with h1 | h1
      · rw [h1] at hqk
        exact absurd hqk hp
      · exact List.any_eq_true.mpr ⟨q, h1, hqk⟩

theorem mapGet_replace_ne {α : Type} (m : List (String × α)) (k k' : String) (v : α)
    (h : k' ≠ k) :
    mapGet (m.map (fun p => if p.1 == k then (k, v) else p)) k' = mapGet m k' := by
  induction m with
  | nil => rfl
  | cons p rest ih =>
    rw [List.map_cons]
    by_cases hp : (p.1 == k) = true
    · rw [if_pos hp, mapGet_cons, mapGet_cons]
      have hkk : ¬(((k, v).1 == k') = true) := by
        simp only [beq_iff_eq]
        exact fun hc => h hc.symm
      have hpk : ¬((p.1 == k') = true) := by
        simp only [beq_iff_eq]
        rw [beq_iff_eq.mp hp]
        exact fun hc => h hc.symm
      rw [if_neg hkk, if_neg hpk]
      exact ih
    · rw [if_neg hp, mapGet_cons, mapGet_cons]
      by_cases hpk : (p.1 == k') = true
      · rw [if_pos hpk, if_pos hpk]
      · rw [if_neg hpk, if_neg hpk]
        exact ih

theorem mapGet_append_single {α : Type} (m : List (String × α)) (k : String) (v : α) :
    (m.any (fun p => p.1 == k) = false → mapGet (m ++ [(k, v)]) k = some v) ∧
      (∀ k', k' ≠ k → mapGet (m ++ [(k, v)]) k' = mapGet m k') := by
  induction m with
  | nil =>
    constructor
    · intro _
      rw [List.nil_append, mapGet_cons]
      simp
    · intro k' hk'
      rw [List.nil_append, mapGet_cons, if_neg (by simp [Ne.symm hk'])]
  | cons p rest ih =>
    constructor
    · intro hany
      rw [List.any_cons] at hany
      rw [List.cons_append, mapGet_cons]
      have hp : ¬((p.1 == k) = true) := by
        intro hp
        simp [hp] at hany
      rw [if_neg hp]
      apply ih.1
      rcases Bool.or_eq_false_iff.mp hany with ⟨_, h2⟩
      exact h2
    · intro k' hk'
      rw [List.cons_append, mapGet_cons, mapGet_cons]
      by_cases hp : (p.1 == k') = true
      · rw [if_pos hp, if_pos hp]
      · rw [if_neg hp, if_neg hp, ih.2 k' hk']

theorem mapGet_mapSet_self {α : Type} (m : List (String × α)) (k : String) (v : α) :
    mapGet (mapSet m k v) k = some v := by
  unfold mapSet
  by_cases hany : m.any (fun p => p.1 == k) = true
  · rw [if_pos hany]
    exact mapGet_replace_self m k v hany
  · rw [if_neg hany]
    exact (mapGet_append_single m k v).1 (Bool.eq_false_iff.mpr hany)

theorem mapGet_mapSet_ne {α : Type} (m : List (String × α)) (k k' : String) (v : α)
    (h : k' ≠ k) : mapGet (mapSet m k v) k' = mapGet m k' := by
  unfold mapSet
  by_cases hany : m.any (fun p => p.1 == k) = true
  · rw [if_pos hany]
    exact mapGet_replace_ne m k k' v h
  · rw [if_neg hany]
    exact (mapGet_append_single m k v).2 k' h

theorem mapGet_mapDelete_self {α : Type} (m : List (String × α)) (k : String) :
    mapGet ((mapDelete m k).2) k = none := by
  rw [mapGet_eq_none_iff]
  intro hk
  rcases List.mem_map.mp hk with ⟨q, hq, hqk⟩
  have h2 := (List.mem_filter.mp hq).2
  simp [hqk] at h2

theorem mapGet_mapDelete_ne {α : Type} (m : List (String × α)) (k k' : String)
    (h : k' ≠ k) : mapGet ((mapDelete m k).2) k' = mapGet m k' := by
  show mapGet (m.filter (fun p => p.1 != k)) k' = mapGet m k'
  induction m with
  | nil => rfl
  | cons p rest ih =>
    rw [List.filter_cons, mapGet_cons]
    by_cases hpk : (p.1 != k) = true
    · rw [if_pos hpk, mapGet_cons, ih]
    · rw [if_neg hpk]
      have hp : p.1 = k := by
        simp only [bne_iff_ne, ne_eq, Decidable.not_not] at hpk
        exact hpk
      rw [if_neg (by simp [hp, Ne.symm h]), ih]

theorem mapDelete_fst {α : Type} (m : List (String × α)) (k : String) :
    (mapDelete m k).1 = (mapGet m k).isSome := by
  unfold mapDelete mapGet
  rw [Option.isSome_map']
  rw [Bool.eq_iff_iff, List.any_eq_true, List.find?_isSome]

theorem keys_mapSet {α : Type} (m : List (String × α)) (k : String) (v : α) :
    (mapSet m k v).map (fun p => p.1) =
      if m.any (fun p => p.1 == k) then m.map (fun p => p.1)
      else m.map (fun p => p.1) ++ [k] := by
  unfold mapSet
  by_cases hany : m.any (fun p => p.1 == k) = true
  · rw [if_pos hany, if_pos hany, List.map_map]
    apply List.map_congr_left
    intro q hq
    by_cases hqk : (q.1 == k) = true
    · simp [Function.comp, hqk, beq_iff_eq.mp hqk]
    · simp [Function.comp, hqk]
  · rw [if_neg hany, if_neg hany]
    simp

/-! Claim theorems. -/

/-- C10: `hasClass()` and `hasStyle()` called with zero arguments return
`true` on every element, even one without any `class` or `style` attribute
(the membership check over an empty argument list is vacuously true). -/
theorem claim10_hasClass_hasStyle_vacuous (e : Element) :
    hasClass e [] = true ∧ hasStyle e [] = true := ⟨rfl, rfl⟩

/-- C9: `_removeAttribute` fires exactly one `attributes` change
notification at the start of every call, for every element, key and token
argument — also when it removes nothing and returns `false` (absent key,
or named tokens removed with the structured value left non-empty). -/
theorem claim9_removeAttribute_always_fires (e : Element) (key : String)
    (tokens : Option ArrOrItem) :
    (removeAttribute e key tokens).2.2 = [ChangeKind.attributes] := by
  unfold removeAttribute
  cases tokens with
  | none => rfl
  | some toks =>
    dsimp only
    by_cases h : (usesStylesMap e.name key || usesTokenList e.name key) = true
    · rw [if_pos h]
      cases mapGet e.attrs key with
      | none => rfl
      | some current =>
        dsimp only
        by_cases he : valIsEmpty (valRemove current (removeTokensArg e.name key toks)) = true
        · rw [if_pos he]
        · rw [if_neg he]
    · rw [if_neg h]

/-- C5: `getAttributeKeys` yields `class` first (when present), then
`style` (when present), then every remaining key in storage order, and no
key is yielded twice; the yielded keys are exactly the attribute keys. -/
theorem claim5_getAttributeKeys_order (e : Element)
    (hn : (e.attrs.map (fun p => p.1)).Nodup) :
    (getAttributeKeys e).Nodup ∧
    (∀ k, k ∈ getAttributeKeys e ↔ k ∈ e.attrs.map (fun p => p.1)) ∧
    getAttributeKeys e =
      (if hasAttributeB e "class" then ["class"] else []) ++
      (if hasAttributeB e "style" then ["style"] else []) ++
      ((e.attrs.map (fun p => p.1)).filter (fun k => k ≠ "class" && k ≠ "style")) := by
  refine ⟨?_, ?_, rfl⟩
  · have hrest : ((e.attrs.map (fun p => p.1)).filter
        (fun k => k ≠ "class" && k ≠ "style")).Nodup := hn.filter _
    unfold getAttributeKeys
    by_cases hc : (mapGet e.attrs "class").isSome = true <;>
      by_cases hs : (mapGet e.attrs "style").isSome = true <;>
        simp [hc, hs, List.nodup_cons, List.mem_filter]
    all_goals simpa using hrest
  · intro k
    unfold getAttributeKeys
    constructor
    · intro hk
      rcases List.mem_append.mp hk with h1 | h1
      · rcases List.mem_append.mp h1 with h2 | h2
        · by_cases hc : (mapGet e.attrs "class").isSome = true
          · rw [if_pos hc] at h2
            simp at h2
            rw [h2]
            exact mapGet_isSome_iff.mp hc
          · rw [if_neg hc] at h2
            simp at h2
        · by_cases hs : (mapGet e.attrs "style").isSome = true
          · rw [if_pos hs] at h2
            simp at h2
            rw [h2]
            exact mapGet_isSome_iff.mp hs
          · rw [if_neg hs] at h2
            simp at h2
      · exact (List.mem_filter.mp h1).1
    · intro hk
      by_cases hkc : k = "class"
      · have hc : (mapGet e.attrs "class").isSome = true := by
          apply mapGet_isSome_iff.mpr
          rw [← hkc]
          exact hk
        apply List.mem_append.mpr
        left
        apply List.mem_append.mpr
        left
        rw [if_pos hc]
        simp [hkc]
      · by_cases hks : k = "style"
        · have hs : (mapGet e.attrs "style").isSome = true := by
            apply mapGet_isSome_iff.mpr
            rw [← hks]
            exact hk
          apply List.mem_append.mpr
          left
          apply List.mem_append.mpr
          right
          rw [if_pos hs]
          simp [hks]
        · apply List.mem_append.mpr
          right
          exact List.mem_filter.mpr ⟨hk, by simp [hkc, hks]⟩

/-- Witness for C5 at a concrete input: on an element storing `x`, `style`
and `class` in that insertion order, the yielded keys are duplicate-free
(and, per the theorem, ordered `class`, `style`, then the rest). -/
theorem claim5_witness :
    (getAttributeKeys
      { name := "p",
        attrs := [("x", AttrValue.str "1"), ("style", AttrValue.styles [("c", "d")]),
          ("class", AttrValue.tokens ["a"])],
        children := [], eid := 0 }).Nodup :=
  (claim5_getAttributeKeys_order
    { name := "p",
      attrs := [("x", AttrValue.str "1"), ("style", AttrValue.styles [("c", "d")]),
        ("class", AttrValue.tokens ["a"])],
      children := [], eid := 0 } (by decide)).1

theorem toMapRaw_keys_nodup (attrs : List (String × Raw)) :
    ((toMapRaw attrs).map (fun p => p.1)).Nodup := by
  suffices h : ∀ acc : List (String × Raw), (acc.map (fun p => p.1)).Nodup →
      ((attrs.foldl (fun acc p => mapSet acc p.1 p.2) acc).map (fun p => p.1)).Nodup by
    exact h [] (by simp)
  induction attrs with
  | nil => exact fun acc hacc => hacc
  | cons p rest ih =>
    intro acc hacc
    apply ih
    rw [keys_mapSet]
    by_cases hany : acc.any (fun q => q.1 == p.1) = true
    · rw [if_pos hany]
      exact hacc
    · rw [if_neg hany]
      apply List.Nodup.append hacc (by simp)
      rw [List.disjoint_singleton]
      intro hmem
      rcases List.mem_map.mp hmem with ⟨q, hq, hqk⟩
      exact hany (List.any_eq_true.mpr ⟨q, hq, beq_iff_eq.mpr hqk⟩)

theorem parseStep_fst (name pk : String) (pv : Raw) (q : String × AttrValue)
    (h : parseStep name (pk, pv) = some q) : q.1 = pk := by
  cases pv <;> unfold parseStep at h <;> dsimp only at h
  · exact absurd h (by simp)
  all_goals
    split at h
    · rw [← Option.some_inj.mp h]
    · split at h
      · rw [← Option.some_inj.mp h]
      · rw [← Option.some_inj.mp h]

theorem mapGet_filterMap_parseStep (name k : String) :
    ∀ m : List (String × Raw), (m.map (fun p => p.1)).Nodup →
      mapGet (m.filterMap (parseStep name)) k =
        (mapGet m k).bind (fun v => (parseStep name (k, v)).map (fun q => q.2)) := by
  intro m
  induction m with
  | nil => intro _; rfl
  | cons p rest ih =>
    intro hn
    rw [List.map_cons] at hn
    rw [List.filterMap_cons]
    by_cases hpk : (p.1 == k) = true
    · have hpk' : p.1 = k := beq_iff_eq.mp hpk
      have hpeta : (k, p.2) = p := by rw [← hpk']
      cases hps : parseStep name p with
      | none =>
        have hrest : mapGet rest k = none := by
          rw [mapGet_eq_none_iff]
          intro hk
          apply (List.nodup_cons.mp hn).1
          rw [hpk']
          exact hk
        rw [ih (List.nodup_cons.mp hn).2, hrest, mapGet_cons, if_pos hpk]
        have hnone : parseStep name (k, p.2) = none := by rw [hpeta]; exact hps
        simp [hnone]
      | some q =>
        have hq1 : q.1 = p.1 := by
          apply parseStep_fst name p.1 p.2 q
          rw [Prod.mk.eta]
          exact hps
        rw [mapGet_cons]
        have hqk : (q.1 == k) = true := by rw [hq1]; exact hpk
        rw [if_pos hqk, mapGet_cons, if_pos hpk]
        have hsome : parseStep name (k, p.2) = some q := by rw [hpeta]; exact hps
        simp [hsome]
    · cases hps : parseStep name p with
      | none =>
        rw [ih (List.nodup_cons.mp hn).2, mapGet_cons, if_neg hpk]
      | some q =>
        have hq1 : q.1 = p.1 := by
          apply parseStep_fst name p.1 p.2 q
          rw [Prod.mk.eta]
          exact hps
        rw [mapGet_cons]
        have hqk : ¬((q.1 == k) = true) := by rw [hq1]; exact hpk
        rw [if_neg hqk, mapGet_cons, if_neg hpk]
        exact ih (List.nodup_cons.mp hn).2

/-- C7: the structured-attribute dispatch is keyed by the pair
(element name, attribute key): `rel` is a token list on anchors only and a
plain string elsewhere, `class` and `style` are structured on every
element, and an attribute constructed with a `null` value is removed and
never stored. -/
theorem claim7_structured_dispatch :
    (usesTokenList "a" "rel" = true) ∧
    (∀ name, name ≠ "a" → usesTokenList name "rel" = false) ∧
    (∀ name, usesTokenList name "class" = true) ∧
    (∀ name, usesStylesMap name "style" = true) ∧
    (∀ (attrs : List (String × Raw)) (k s : String), mapGet (toMapRaw attrs) k = some (Raw.rstr s) →
      ∀ name, mapGet (parseAttributes name attrs) k =
        some (if usesStylesMap name k then AttrValue.styles (parseStyles s)
              else if usesTokenList name k then AttrValue.tokens (tokensSetTo s)
              else AttrValue.str s)) ∧
    (∀ (attrs : List (String × Raw)) (k : String), mapGet (toMapRaw attrs) k = some Raw.rnull →
      ∀ name, mapGet (parseAttributes name attrs) k = none) := by
  refine ⟨by decide, ?_, ?_, fun name => rfl, ?_, ?_⟩
  · intro name h
    simp [usesTokenList, h]
  · intro name
    simp [usesTokenList]
  · intro attrs k s h name
    unfold parseAttributes
    rw [mapGet_filterMap_parseStep name k (toMapRaw attrs) (toMapRaw_keys_nodup attrs), h]
    by_cases h1 : usesStylesMap name k = true
    · simp [parseStep, h1, rawToString]
    · by_cases h2 : usesTokenList name k = true <;> simp [parseStep, h1, h2, rawToString]
  · intro attrs k h name
    unfold parseAttributes
    rw [mapGet_filterMap_parseStep name k (toMapRaw attrs) (toMapRaw_keys_nodup attrs), h]
    simp [parseStep]

/-- Witness for C7 at concrete inputs: `rel` on an anchor becomes a token
list, `rel` on a `div` stays a plain string, and a `null` value is never
stored. -/
theorem claim7_witness :
    usesTokenList "div" "rel" = false ∧
    mapGet (parseAttributes "a" [("rel", Raw.rstr "nofollow noopener")]) "rel" =
      some (AttrValue.tokens ["nofollow", "noopener"]) ∧
    mapGet (parseAttributes "div" [("rel", Raw.rstr "x")]) "rel" = some (AttrValue.str "x") ∧
    mapGet (parseAttributes "div" [("x", Raw.rnull)]) "x" = none := by
  refine ⟨claim7_structured_dispatch.2.1 "div" (by decide), ?_, ?_, ?_⟩
  · exact (claim7_structured_dispatch.2.2.2.2.1 [("rel", Raw.rstr "nofollow noopener")]
      "rel" "nofollow noopener" (by decide) "a").trans (by decide)
  · exact (claim7_structured_dispatch.2.2.2.2.1 [("rel", Raw.rstr "x")]
      "rel" "x" (by decide) "div").trans (by decide)
  · exact claim7_structured_dispatch.2.2.2.2.2 [("x", Raw.rnull)] "x" (by decide) "div"

/-- C8: the bookmark upcast matcher accepts a view element iff it is named
`a`, has an `id`, lacks an `href` and — in the data pipeline only — has no
children; an anchor with both `id` and `href` is never accepted; and the
data downcast of a bookmark emits an empty `a` element carrying exactly
that id and no `href`, which the data-pipeline matcher accepts back. -/
theorem claim8_bookmark_roundtrip :
    (∀ e dp, (upcastMatcher e dp).isSome = true ↔
      (e.name = "a" ∧ hasAttributeB e "id" = true ∧ hasAttributeB e "href" = false ∧
        (dp = true → e.children = []))) ∧
    (∀ e dp, hasAttributeB e "id" = true → hasAttributeB e "href" = true →
      upcastMatcher e dp = none) ∧
    (∀ bid, (dataDowncastBookmarkView bid).name = "a" ∧
      getAttribute (dataDowncastBookmarkView bid) "id" = some bid ∧
      hasAttributeB (dataDowncastBookmarkView bid) "href" = false ∧
      (dataDowncastBookmarkView bid).children = [] ∧
      (upcastMatcher (dataDowncastBookmarkView bid) true).isSome = true) := by
  refine ⟨?_, ?_, ?_⟩
  · intro e dp
    cases hn : (e.name == "a") with
    | false =>
      simp only [upcastMatcher, hn, Bool.not_false, if_true]
      constructor
      · intro hc
        simp at hc
      · intro hc
        exact absurd hc.1 (beq_eq_false_iff_ne.mp hn)
    | true =>
      cases hid : hasAttributeB e "id" <;> cases hhref : hasAttributeB e "href" <;>
        cases hch : e.children.isEmpty <;> cases dp <;>
          simp_all [upcastMatcher, beq_iff_eq.mp hn, List.isEmpty_iff]
  · intro e dp hid hhref
    cases hn : (e.name == "a") with
    | false => simp [upcastMatcher, hn]
    | true => simp [upcastMatcher, hn, hid, hhref]
  · intro bid
    exact ⟨rfl, rfl, rfl, rfl, rfl⟩

/-- Witness for C8 at concrete inputs: the downcast view of a bookmark with
id `foo` upcasts, and an anchor carrying both `id` and `href` is rejected. -/
theorem claim8_witness :
    (upcastMatcher (mkElement "a" [("id", Raw.rstr "x"), ("href", Raw.rstr "y")] [] 0) true
      = none) ∧
    (upcastMatcher (dataDowncastBookmarkView "foo") true).isSome = true := by
  constructor
  · exact claim8_bookmark_roundtrip.2.1
      (mkElement "a" [("id", Raw.rstr "x"), ("href", Raw.rstr "y")] [] 0) true rfl rfl
  · exact ((claim8_bookmark_roundtrip.2.2 "foo").2.2.2.2)

/-- C3: `_removeAttribute` with tokens on a structured key removes only the
named tokens from the stored value and deletes the key exactly when the
value becomes empty; without tokens, or on a plain key, it deletes the
whole key; all other keys are untouched; and the returned boolean reports
whether the attribute entry was removed (present before, absent after). -/
theorem claim3_removeAttribute (e : Element) (key : String) (tokens : Option ArrOrItem)
    (hwf : KindOk e = true) :
    ((removeAttribute e key tokens).1 =
      ((mapGet e.attrs key).isSome &&
        !((mapGet (removeAttribute e key tokens).2.1.attrs key).isSome))) ∧
    (∀ k', k' ≠ key →
      mapGet (removeAttribute e key tokens).2.1.attrs k' = mapGet e.attrs k') ∧
    (match tokens with
     | none => mapGet (removeAttribute e key tokens).2.1.attrs key = none
     | some toks =>
       if (usesStylesMap e.name key || usesTokenList e.name key) = true then
         match mapGet e.attrs key with
         | none => (removeAttribute e key tokens).2.1 = e
         | some v =>
           mapGet (removeAttribute e key tokens).2.1.attrs key =
             (if valIsEmpty (valRemove v (removeTokensArg e.name key toks)) then none
              else some (valRemove v (removeTokensArg e.name key toks)))
       else mapGet (removeAttribute e key tokens).2.1.attrs key = none) := by
  cases tokens with
  | none =>
    unfold removeAttribute
    dsimp only
    refine ⟨?_, ?_, ?_⟩
    · rw [mapDelete_fst, mapGet_mapDelete_self]
      simp
    · intro k' hk'
      exact mapGet_mapDelete_ne e.attrs key k' hk'
    · exact mapGet_mapDelete_self e.attrs key
  | some toks =>
    unfold removeAttribute
    dsimp only
    by_cases hst : (usesStylesMap e.name key || usesTokenList e.name key) = true
    · rw [if_pos hst]
      cases hv : mapGet e.attrs key with
      | none =>
        dsimp only
        exact ⟨by simp [hv], fun k' _ => rfl, by rw [if_pos hst]⟩
      | some v =>
        dsimp only
        by_cases he : valIsEmpty (valRemove v (removeTokensArg e.name key toks)) = true
        · rw [if_pos he]
          refine ⟨?_, ?_, ?_⟩
          · rw [mapDelete_fst, mapGet_mapDelete_self]
            simp [hv]
          · intro k' hk'
            exact mapGet_mapDelete_ne e.attrs key k' hk'
          · dsimp only
            rw [if_pos he, if_pos hst]
            exact mapGet_mapDelete_self e.attrs key
        · rw [if_neg he]
          refine ⟨?_, ?_, ?_⟩
          · rw [mapGet_mapSet_self]
            simp [hv]
          · intro k' hk'
            exact mapGet_mapSet_ne e.attrs key k' _ hk'
          · dsimp only
            rw [if_neg he, if_pos hst]
            exact mapGet_mapSet_self e.attrs key _
    · rw [if_neg hst]
      refine ⟨?_, ?_, ?_⟩
      · rw [mapDelete_fst, mapGet_mapDelete_self]
        simp
      · intro k' hk'
        exact mapGet_mapDelete_ne e.attrs key k' hk'
      · rw [if_neg hst]
        exact mapGet_mapDelete_self e.attrs key

/-- Witness for C3 at a concrete input: removing token `a` from
`class="a b"` keeps the key with token `b` and reports no entry removal;
removing both tokens deletes the key and reports removal. -/
theorem claim3_witness :
    ((removeAttribute
        { name := "p", attrs := [("class", AttrValue.tokens ["a", "b"])],
          children := [], eid := 0 } "class" (some (ArrOrItem.one "a"))).1 = false) ∧
    ((removeAttribute
        { name := "p", attrs := [("class", AttrValue.tokens ["a", "b"])],
          children := [], eid := 0 } "class" (some (ArrOrItem.many ["a", "b"]))).1 = true) := by
  constructor
  · exact (claim3_removeAttribute
      { name := "p", attrs := [("class", AttrValue.tokens ["a", "b"])],
        children := [], eid := 0 } "class" (some (ArrOrItem.one "a")) (by decide)).1.trans
      (by decide)
  · exact (claim3_removeAttribute
      { name := "p", attrs := [("class", AttrValue.tokens ["a", "b"])],
        children := [], eid := 0 } "class" (some (ArrOrItem.many ["a", "b"])) (by decide)).1.trans
      (by decide)

theorem mergeStep_fires_prefix :
    ∀ (l : List (String × AttrValue)) (st : Element × List ChangeKind),
      st.2 <+: (l.foldl mergeStep st).2 := by
  intro l
  induction l with
  | nil => intro st; exact List.prefix_rfl
  | cons p rest ih =>
    intro st
    rw [List.foldl_cons]
    apply List.IsPrefix.trans _ (ih (mergeStep st p))
    obtain ⟨pk, pv⟩ := p
    unfold mergeStep
    cases mapGet st.1.attrs pk with
    | none => exact ⟨(setAttribute st.1 pk (.sval pv) true).2, rfl⟩
    | some v =>
      cases v <;> cases pv <;>
        first
          | exact ⟨(setAttribute st.1 pk (.sval _) true).2, rfl⟩
          | exact List.prefix_rfl

/-- C4: `_mergeAttributesFrom` and `_subtractAttributesOf` run their check
(`_canMergeAttributesFrom` / `_hasAttributesMatching`) first; when the
check fails they return `false` with the element untouched and no change
fired; when it passes they fire an `attributes` change first and apply the
operation; each returns whether the operation was applied. -/
theorem claim4_merge_subtract_gating (a b : Element) :
    ((mergeAttributesFrom a b).1 = canMergeAttributesFrom a b) ∧
    (canMergeAttributesFrom a b = false → mergeAttributesFrom a b = (false, a, [])) ∧
    (canMergeAttributesFrom a b = true →
      ((mergeAttributesFrom a b).2.2).head? = some ChangeKind.attributes) ∧
    ((subtractAttributesOf a b).1 = hasAttributesMatching a b) ∧
    (hasAttributesMatching a b = false → subtractAttributesOf a b = (false, a, [])) ∧
    (hasAttributesMatching a b = true →
      (subtractAttributesOf a b).2.2 = [ChangeKind.attributes]) := by
  refine ⟨?_, ?_, ?_, ?_, ?_, ?_⟩
  · cases hc : canMergeAttributesFrom a b with
    | false => simp [mergeAttributesFrom, hc]
    | true => simp [mergeAttributesFrom, hc]
  · intro hc
    simp [mergeAttributesFrom, hc]
  · intro hc
    unfold mergeAttributesFrom
    rw [if_neg (by simp [hc])]
    dsimp only
    obtain ⟨t, ht⟩ := mergeStep_fires_prefix b.attrs (a, [ChangeKind.attributes])
    rw [← ht]
    rfl
  · cases hc : hasAttributesMatching a b with
    | false => simp [subtractAttributesOf, hc]
    | true => simp [subtractAttributesOf, hc]
  · intro hc
    simp [subtractAttributesOf, hc]
  · intro hc
    simp [subtractAttributesOf, hc]

/-- Witness for C4 at concrete inputs: a failed merge returns `false` with
the element and fire list untouched; a passed merge fires `attributes`
first; a passed subtract fires exactly one `attributes` change. -/
theorem claim4_witness :
    (mergeAttributesFrom
        { name := "p", attrs := [("x", AttrValue.str "1")], children := [], eid := 0 }
        { name := "p", attrs := [("x", AttrValue.str "2")], children := [], eid := 1 } =
      (false, { name := "p", attrs := [("x", AttrValue.str "1")], children := [], eid := 0 }, [])) ∧
    ((mergeAttributesFrom
        { name := "p", attrs := [("x", AttrValue.str "1")], children := [], eid := 0 }
        { name := "p", attrs := [("x", AttrValue.str "1")], children := [], eid := 0 }).2.2.head? =
      some ChangeKind.attributes) ∧
    ((subtractAttributesOf
        { name := "p", attrs := [("x", AttrValue.str "1")], children := [], eid := 0 }
        { name := "p", attrs := [("x", AttrValue.str "1")], children := [], eid := 0 }).2.2 =
      [ChangeKind.attributes]) := by
  refine ⟨?_, ?_, ?_⟩
  · exact (claim4_merge_subtract_gating
      { name := "p", attrs := [("x", AttrValue.str "1")], children := [], eid := 0 }
      { name := "p", attrs := [("x", AttrValue.str "2")], children := [], eid := 1 }).2.1
      (by decide)
  · exact (claim4_merge_subtract_gating
      { name := "p", attrs := [("x", AttrValue.str "1")], children := [], eid := 0 }
      { name := "p", attrs := [("x", AttrValue.str "1")], children := [], eid := 0 }).2.2.1
      (by decide)
  · exact (claim4_merge_subtract_gating
      { name := "p", attrs := [("x", AttrValue.str "1")], children := [], eid := 0 }
      { name := "p", attrs := [("x", AttrValue.str "1")], children := [], eid := 0 }).2.2.2.2.2
      (by decide)

theorem skip_cond_eq_not_keyHit (pk : Pattern) (excl : List String) (qk : String)
    (qv : AttrValue) :
    (excl.contains qk || !(isPatternMatched pk qk)) = !(attrKeyHit pk excl (qk, qv)) := by
  unfold attrKeyHit
  cases excl.contains qk <;> cases isPatternMatched pk qk <;> rfl

theorem attrsMatchLoop_cons (pk pt : Pattern) (pv : Option Pattern) (excl : List String)
    (hk hv : Bool) (acc : List (String × Option String)) (qk : String) (qv : AttrValue)
    (rest : List (String × AttrValue)) :
    attrsMatchLoop pk pt pv excl hk hv acc ((qk, qv) :: rest) =
      if excl.contains qk || !(isPatternMatched pk qk) then
        attrsMatchLoop pk pt pv excl hk hv acc rest
      else
        match qv with
        | .str s =>
          if isPatternMatched pt s then
            attrsMatchLoop pk pt pv excl true true (acc ++ [(qk, none)]) rest
          else if !(Pattern.isRegExp pk) then none
          else attrsMatchLoop pk pt pv excl true hv acc rest
        | v =>
          match getTokensMatch v qk pt (pv.getD Pattern.pTrue) with
          | some tm => attrsMatchLoop pk pt pv excl true true (acc ++ tm) rest
          | none =>
            if !(Pattern.isRegExp pk) then none
            else attrsMatchLoop pk pt pv excl true hv acc rest := rfl

theorem attrsMatchLoop_no_value (pk pt : Pattern) (pv : Option Pattern) (excl : List String) :
    ∀ (attrs : List (String × AttrValue)) (hk : Bool) (acc : List (String × Option String)),
      attrs.all (fun p => !(attrFullMatch pk pt pv excl p)) = true →
      attrsMatchLoop pk pt pv excl hk false acc attrs = none ∨
        ∃ hk' acc', attrsMatchLoop pk pt pv excl hk false acc attrs = some (hk', false, acc') := by
  intro attrs
  induction attrs with
  | nil => intro hk acc _; right; exact ⟨hk, acc, rfl⟩
  | cons q rest ih =>
    intro hk acc hall
    rw [List.all_cons, Bool.and_eq_true] at hall
    obtain ⟨qk, qv⟩ := q
    rw [attrsMatchLoop_cons]
    by_cases hsk : (excl.contains qk || !(isPatternMatched pk qk)) = true
    · rw [if_pos hsk]
      exact ih hk acc hall.2
    · rw [if_neg hsk]
      have hkh : attrKeyHit pk excl (qk, qv) = true := by
        rw [skip_cond_eq_not_keyHit pk excl qk qv] at hsk
        simpa using hsk
      cases qv with
      | str s =>
        dsimp only
        have hfull : attrFullMatch pk pt pv excl (qk, AttrValue.str s) = false := by
          have h2 := hall.1
          rwa [Bool.not_eq_true'] at h2
        have hm : isPatternMatched pt s = false := by
          unfold attrFullMatch at hfull
          rw [hkh, Bool.true_and] at hfull
          exact hfull
        have hnm : ¬(isPatternMatched pt s = true) := by simp [hm]
        rw [if_neg hnm]
        by_cases hre : (!(Pattern.isRegExp pk)) = true
        · rw [if_pos hre]
          left
          rfl
        · rw [if_neg hre]
          exact ih true acc hall.2
      | tokens ts =>
        dsimp only
        have hfull : attrFullMatch pk pt pv excl (qk, AttrValue.tokens ts) = false := by
          have h2 := hall.1
          rwa [Bool.not_eq_true'] at h2
        have hm : getTokensMatch (AttrValue.tokens ts) qk pt (pv.getD Pattern.pTrue) = none := by
          unfold attrFullMatch at hfull
          rw [hkh, Bool.true_and] at hfull
          have h3 : (getTokensMatch (AttrValue.tokens ts) qk pt (pv.getD Pattern.pTrue)).isSome
              = false := hfull
          rw [← Bool.not_eq_true, Option.not_isSome_iff_eq_none] at h3
          exact h3
        rw [hm]
        by_cases hre : (!(Pattern.isRegExp pk)) = true
        · rw [if_pos hre]
          left
          rfl
        · rw [if_neg hre]
          exact ih true acc hall.2
      | styles ss =>
        dsimp only
        have hfull : attrFullMatch pk pt pv excl (qk, AttrValue.styles ss) = false := by
          have h2 := hall.1
          rwa [Bool.not_eq_true'] at h2
        have hm : getTokensMatch (AttrValue.styles ss) qk pt (pv.getD Pattern.pTrue) = none := by
          unfold attrFullMatch at hfull
          rw [hkh, Bool.true_and] at hfull
          have h3 : (getTokensMatch (AttrValue.styles ss) qk pt (pv.getD Pattern.pTrue)).isSome
              = false := hfull
          rw [← Bool.not_eq_true, Option.not_isSome_iff_eq_none] at h3
          exact h3
        rw [hm]
        by_cases hre : (!(Pattern.isRegExp pk)) = true
        · rw [if_pos hre]
          left
          rfl
        · rw [if_neg hre]
          exact ih true acc hall.2

theorem attrsMatchLoop_str_abort (pk pt : Pattern) (pv : Option Pattern) (excl : List String)
    (hre : Pattern.isRegExp pk = false) :
    ∀ (attrs : List (String × AttrValue)) (hk hv : Bool) (acc : List (String × Option String)),
      attrs.any (fun p => attrKeyHit pk excl p && !(attrFullMatch pk pt pv excl p)) = true →
      attrsMatchLoop pk pt pv excl hk hv acc attrs = none := by
  have hyr : (!(Pattern.isRegExp pk)) = true := by simp [hre]
  intro attrs
  induction attrs with
  | nil => intro hk hv acc hx; simp at hx
  | cons q rest ih =>
    intro hk hv acc hx
    rw [List.any_cons, Bool.or_eq_true] at hx
    obtain ⟨qk, qv⟩ := q
    rw [attrsMatchLoop_cons]
    by_cases hsk : (excl.contains qk || !(isPatternMatched pk qk)) = true
    · rw [if_pos hsk]
      apply ih hk hv acc
      rcases hx with hq | hrest
      · exfalso
        rw [Bool.and_eq_true] at hq
        have hkh := hq.1
        rw [skip_cond_eq_not_keyHit pk excl qk qv, hkh] at hsk
        simp at hsk
      · exact hrest
    · rw [if_neg hsk]
      have hkh : attrKeyHit pk excl (qk, qv) = true := by
        rw [skip_cond_eq_not_keyHit pk excl qk qv] at hsk
        simpa using hsk
      rcases hx with hq | hrest
      · rw [Bool.and_eq_true, Bool.not_eq_true'] at hq
        have hfull := hq.2
        unfold attrFullMatch at hfull
        rw [hkh, Bool.true_and] at hfull
        cases qv with
        | str s =>
          dsimp only
          have hm : isPatternMatched pt s = false := hfull
          rw [if_neg (by simp [hm] : ¬(isPatternMatched pt s = true)), if_pos hyr]
        | tokens ts =>
          dsimp only
          have hm : getTokensMatch (AttrValue.tokens ts) qk pt (pv.getD Pattern.pTrue)
              = none := by
            have h3 : (getTokensMatch (AttrValue.tokens ts) qk pt
                (pv.getD Pattern.pTrue)).isSome = false := hfull
            rw [← Bool.not_eq_true, Option.not_isSome_iff_eq_none] at h3
            exact h3
          rw [hm, if_pos hyr]
        | styles ss =>
          dsimp only
          have hm : getTokensMatch (AttrValue.styles ss) qk pt (pv.getD Pattern.pTrue)
              = none := by
            have h3 : (getTokensMatch (AttrValue.styles ss) qk pt
                (pv.getD Pattern.pTrue)).isSome = false := hfull
            rw [← Bool.not_eq_true, Option.not_isSome_iff_eq_none] at h3
            exact h3
          rw [hm, if_pos hyr]
      · cases qv with
        | str s =>
          dsimp only
          by_cases hm : isPatternMatched pt s = true
          · rw [if_pos hm]
            exact ih true true _ hrest
          · rw [if_neg hm, if_pos hyr]
        | tokens ts =>
          dsimp only
          cases hm : getTokensMatch (AttrValue.tokens ts) qk pt (pv.getD Pattern.pTrue) with
          | some tm =>
            dsimp only
            exact ih true true _ hrest
          | none =>
            dsimp only
            rw [if_pos hyr]
        | styles ss =>
          dsimp only
          cases hm : getTokensMatch (AttrValue.styles ss) qk pt (pv.getD Pattern.pTrue) with
          | some tm =>
            dsimp only
            exact ih true true _ hrest
          | none =>
            dsimp only
            rw [if_pos hyr]

theorem attrsMatchLoop_regex (pk pt : Pattern) (pv : Option Pattern) (excl : List String)
    (hre : Pattern.isRegExp pk = true) :
    ∀ (attrs : List (String × AttrValue)) (hk hv : Bool) (acc : List (String × Option String)),
      ∃ acc', attrsMatchLoop pk pt pv excl hk hv acc attrs =
        some (hk || attrs.any (attrKeyHit pk excl),
              hv || attrs.any (attrFullMatch pk pt pv excl), acc') := by
  have hnr : ¬((!(Pattern.isRegExp pk)) = true) := by simp [hre]
  intro attrs
  induction attrs with
  | nil => intro hk hv acc; exact ⟨acc, by simp [attrsMatchLoop]⟩
  | cons q rest ih =>
    intro hk hv acc
    obtain ⟨qk, qv⟩ := q
    rw [attrsMatchLoop_cons]
    by_cases hsk : (excl.contains qk || !(isPatternMatched pk qk)) = true
    · rw [if_pos hsk]
      have hkh : attrKeyHit pk excl (qk, qv) = false := by
        rw [skip_cond_eq_not_keyHit pk excl qk qv] at hsk
        simpa using hsk
      have hfq : attrFullMatch pk pt pv excl (qk, qv) = false := by
        unfold attrFullMatch
        rw [hkh, Bool.false_and]
      obtain ⟨acc', heq⟩ := ih hk hv acc
      refine ⟨acc', ?_⟩
      rw [heq]
      simp [List.any_cons, hkh, hfq]
    · rw [if_neg hsk]
      have hkh : attrKeyHit pk excl (qk, qv) = true := by
        rw [skip_cond_eq_not_keyHit pk excl qk qv] at hsk
        simpa using hsk
      cases qv with
      | str s =>
        dsimp only
        have hfm : attrFullMatch pk pt pv excl (qk, AttrValue.str s) = isPatternMatched pt s := by
          unfold attrFullMatch
          rw [hkh, Bool.true_and]
        by_cases hm : isPatternMatched pt s = true
        · rw [if_pos hm]
          obtain ⟨acc', heq⟩ := ih true true (acc ++ [(qk, none)])
          refine ⟨acc', ?_⟩
          rw [heq]
          simp [List.any_cons, hkh, hfm, hm]
        · rw [if_neg hm, if_neg hnr]
          obtain ⟨acc', heq⟩ := ih true hv acc
          refine ⟨acc', ?_⟩
          rw [heq]
          simp [List.any_cons, hkh, hfm, Bool.eq_false_iff.mpr hm]
      | tokens ts =>
        dsimp only
        have hfm : attrFullMatch pk pt pv excl (qk, AttrValue.tokens ts) =
            (getTokensMatch (AttrValue.tokens ts) qk pt (pv.getD Pattern.pTrue)).isSome := by
          unfold attrFullMatch
          rw [hkh, Bool.true_and]
        cases hm : getTokensMatch (AttrValue.tokens ts) qk pt (pv.getD Pattern.pTrue) with
        | some tm =>
          dsimp only
          obtain ⟨acc', heq⟩ := ih true true (acc ++ tm)
          refine ⟨acc', ?_⟩
          rw [heq]
          simp [List.any_cons, hkh, hfm, hm]
        | none =>
          dsimp only
          rw [if_neg hnr]
          obtain ⟨acc', heq⟩ := ih true hv acc
          refine ⟨acc', ?_⟩
          rw [heq]
          simp [List.any_cons, hkh, hfm, hm]
      | styles ss =>
        dsimp only
        have hfm : attrFullMatch pk pt pv excl (qk, AttrValue.styles ss) =
            (getTokensMatch (AttrValue.styles ss) qk pt (pv.getD Pattern.pTrue)).isSome := by
          unfold attrFullMatch
          rw [hkh, Bool.true_and]
        cases hm : getTokensMatch (AttrValue.styles ss) qk pt (pv.getD Pattern.pTrue) with
        | some tm =>
          dsimp only
          obtain ⟨acc', heq⟩ := ih true true (acc ++ tm)
          refine ⟨acc', ?_⟩
          rw [heq]
          simp [List.any_cons, hkh, hfm, hm]
        | none =>
          dsimp only
          rw [if_neg hnr]
          obtain ⟨acc', heq⟩ := ih true hv acc
          refine ⟨acc', ?_⟩
          rw [heq]
          simp [List.any_cons, hkh, hfm, hm]

/-- C1 (amended): in `_getAttributesMatch`, when no attribute matches both
the key pattern and the value/token pattern the call returns no match —
for regular-expression key patterns exactly as for exact-string ones;
the real asymmetry is confined to the scan: with a non-regex key pattern
any key-matching attribute whose value does not match aborts the whole
call immediately, while with a regex key pattern such attributes are
tolerated (skipped) and the call succeeds whenever some attribute matches
both key and value. -/
theorem claim1_getAttributesMatch_amended (e : Element) (pk pt : Pattern) (pv : Option Pattern)
    (excl : List String) :
    (e.attrs.all (fun p => !(attrFullMatch pk pt pv excl p)) = true →
      getAttributesMatch e [(pk, pt, pv)] excl = none) ∧
    (Pattern.isRegExp pk = false →
      e.attrs.any (fun p => attrKeyHit pk excl p && !(attrFullMatch pk pt pv excl p)) = true →
      getAttributesMatch e [(pk, pt, pv)] excl = none) ∧
    (Pattern.isRegExp pk = true →
      e.attrs.any (attrFullMatch pk pt pv excl) = true →
      (getAttributesMatch e [(pk, pt, pv)] excl).isSome = true) := by
  refine ⟨?_, ?_, ?_⟩
  · intro hall
    unfold getAttributesMatch getAttributesMatchGo
    rcases attrsMatchLoop_no_value pk pt pv excl e.attrs false [] hall with h | ⟨hk', acc', h⟩
    · rw [h]
    · rw [h]
      simp
  · intro hre hx
    unfold getAttributesMatch getAttributesMatchGo
    rw [attrsMatchLoop_str_abort pk pt pv excl hre e.attrs false false [] hx]
  · intro hre hx
    unfold getAttributesMatch getAttributesMatchGo
    obtain ⟨acc', heq⟩ := attrsMatchLoop_regex pk pt pv excl hre e.attrs false false []
    rw [heq]
    have hkh : e.attrs.any (attrKeyHit pk excl) = true := by
      rcases List.any_eq_true.mp hx with ⟨p, hp, hfp⟩
      apply List.any_eq_true.mpr
      refine ⟨p, hp, ?_⟩
      unfold attrFullMatch at hfp
      rw [Bool.and_eq_true] at hfp
      exact hfp.1
    rw [hkh, hx]
    simp [getAttributesMatchGo]

/-- Counterexample for C1 as stated: a regular-expression key pattern that
matches the key `foo` while no value matches still yields no match at all
(`undefined`), not a partial match containing only the key. -/
theorem claim1_counterexample :
    isPatternMatched (Pattern.pRegex (fun k => k == "foo")) "foo" = true ∧
    isPatternMatched (Pattern.pStr "y") "x" = false ∧
    getAttributesMatch
      { name := "div", attrs := [("foo", AttrValue.str "x")], children := [], eid := 0 }
      [(Pattern.pRegex (fun k => k == "foo"), Pattern.pStr "y", none)] [] = none :=
  ⟨by decide, by decide, by decide⟩

/-- Witness for the amended C1 at concrete inputs: an exact-string key
pattern with no value match yields no match; a regex key pattern with a
partial hit on one attribute and a full hit on another still succeeds,
while the same pattern as an exact `true` (non-regex) pattern aborts. -/
theorem claim1_witness :
    (getAttributesMatch
        { name := "div", attrs := [("foo", AttrValue.str "x")], children := [], eid := 0 }
        [(Pattern.pStr "foo", Pattern.pStr "y", none)] [] = none) ∧
    (getAttributesMatch
        { name := "div", attrs := [("foo", AttrValue.str "x"), ("fop", AttrValue.str "y")],
          children := [], eid := 0 }
        [(Pattern.pTrue, Pattern.pStr "y", none)] [] = none) ∧
    ((getAttributesMatch
        { name := "div", attrs := [("foo", AttrValue.str "x"), ("fop", AttrValue.str "y")],
          children := [], eid := 0 }
        [(Pattern.pRegex (fun k => k == "foo" || k == "fop"), Pattern.pStr "y", none)] []).isSome
      = true) := by
  refine ⟨?_, ?_, ?_⟩
  · exact (claim1_getAttributesMatch_amended
      { name := "div", attrs := [("foo", AttrValue.str "x")], children := [], eid := 0 }
      (Pattern.pStr "foo") (Pattern.pStr "y") none []).1 (by decide)
  · exact (claim1_getAttributesMatch_amended
      { name := "div", attrs := [("foo", AttrValue.str "x"), ("fop", AttrValue.str "y")],
        children := [], eid := 0 }
      Pattern.pTrue (Pattern.pStr "y") none []).2.1 rfl (by decide)
  · exact (claim1_getAttributesMatch_amended
      { name := "div", attrs := [("foo", AttrValue.str "x"), ("fop", AttrValue.str "y")],
        children := [], eid := 0 }
      (Pattern.pRegex (fun k => k == "foo" || k == "fop")) (Pattern.pStr "y") none []).2.2 rfl
      (by decide)

theorem jsSpliceInsert_eq (cs : List VNode) (i : Nat) (n : VNode) :
    jsSpliceInsert cs i n = (cs.take i ++ [n]) ++ cs.drop i := by
  unfold jsSpliceInsert
  rw [List.append_assoc]

theorem insertLoop_cons (eid : Nat) (cs : List VNode) (idx cnt : Nat) (n : VNode)
    (rest : List VNode) :
    insertLoop eid cs idx cnt (n :: rest) =
      insertLoop eid
        (jsSpliceInsert
          (if n.parent == some eid then cs.filter (fun c => c.nid ≠ n.nid) else cs)
          idx (setParent (some eid) n))
        (idx + 1) (cnt + 1) rest := rfl

theorem insertLoop_spec (eid : Nat) :
    ∀ (items cs : List VNode) (idx cnt : Nat),
      idx ≤ cs.length →
      (∀ n ∈ items, n.nid ∉ cs.map (fun c => c.nid)) →
      (items.map (fun c => c.nid)).Nodup →
      insertLoop eid cs idx cnt items =
        (cs.take idx ++ items.map (setParent (some eid)) ++ cs.drop idx,
         idx + items.length, cnt + items.length) := by
  intro items
  induction items with
  | nil =>
    intro cs idx cnt _ _ _
    simp [insertLoop]
  | cons n rest ih =>
    intro cs idx cnt hidx hfresh hnd
    rw [insertLoop_cons]
    have hcs : (if n.parent == some eid then cs.filter (fun c => c.nid ≠ n.nid) else cs)
        = cs := by
      split
      · apply List.filter_eq_self.mpr
        intro c hc
        simp only [ne_eq, decide_eq_true_eq]
        intro hEq
        exact hfresh n (List.mem_cons_self _ _) (List.mem_map.mpr ⟨c, hc, hEq⟩)
      · rfl
    rw [hcs, jsSpliceInsert_eq]
    have hlen : (cs.take idx ++ [setParent (some eid) n]).length = idx + 1 := by
      simp [List.length_append, List.length_take, Nat.min_eq_left hidx]
    have h1 : idx + 1 ≤ ((cs.take idx ++ [setParent (some eid) n]) ++ cs.drop idx).length := by
      rw [List.length_append, hlen]
      omega
    have h2 : ∀ m ∈ rest,
        m.nid ∉ ((cs.take idx ++ [setParent (some eid) n]) ++ cs.drop idx).map
          (fun c => c.nid) := by
      intro m hm hmem
      have hmn : m.nid ∈ rest.map (fun c => c.nid) := List.mem_map.mpr ⟨m, hm, rfl⟩
      rw [List.map_append, List.map_append] at hmem
      rcases List.mem_append.mp hmem with hmem1 | hmem3
      · rcases List.mem_append.mp hmem1 with hmem1 | hmem2
        · rcases List.mem_map.mp hmem1 with ⟨c, hc, hcm⟩
          exact hfresh m (List.mem_cons_of_mem n hm)
            (List.mem_map.mpr ⟨c, List.take_subset idx cs hc, hcm⟩)
        · rw [List.map_cons] at hmem2
          simp only [List.map_nil, List.mem_singleton] at hmem2
          rw [List.map_cons] at hnd
          have hsp : (setParent (some eid) n).nid = n.nid := rfl
          rw [hsp] at hmem2
          exact (List.nodup_cons.mp hnd).1 (hmem2 ▸ hmn)
      · rcases List.mem_map.mp hmem3 with ⟨c, hc, hcm⟩
        exact hfresh m (List.mem_cons_of_mem n hm)
          (List.mem_map.mpr ⟨c, List.drop_subset idx cs hc, hcm⟩)
    have h3 : (rest.map (fun c => c.nid)).Nodup := by
      rw [List.map_cons] at hnd
      exact (List.nodup_cons.mp hnd).2
    rw [ih ((cs.take idx ++ [setParent (some eid) n]) ++ cs.drop idx) (idx + 1)
      (cnt + 1) h1 h2 h3]
    rw [List.take_left' hlen, List.drop_left' hlen]
    rw [List.map_cons]
    have hl : (cs.take idx ++ [setParent (some eid) n]) ++ rest.map (setParent (some eid)) =
        cs.take idx ++ (setParent (some eid) n :: rest.map (setParent (some eid))) := by
      rw [List.append_assoc, List.singleton_append]
    rw [hl]
    rw [show idx + 1 + rest.length = idx + (rest.length + 1) from by omega,
        show cnt + 1 + rest.length = cnt + (rest.length + 1) from by omega]
    rfl

/-- C6 (amended): for a valid index and nodes that are not already children
of the element (fresh node identities, pairwise distinct), `_insertChild`
followed by `_removeChildren` at the same index and count round-trips: the
count is the number of inserted nodes, the removed sequence is exactly the
inserted one in order with cleared parents, and the element's children are
exactly as before the insertion. -/
theorem claim6_insert_remove_roundtrip (e : Element) (i : Nat) (ns : List VNode)
    (hi : i ≤ e.children.length)
    (hfresh : ∀ n ∈ ns, n.nid ∉ e.children.map (fun c => c.nid))
    (hnd : (ns.map (fun c => c.nid)).Nodup) :
    ((insertChild e i ns).1 = ns.length) ∧
    ((removeChildren (insertChild e i ns).2.1 i ns.length).1 = ns.map (setParent none)) ∧
    (∀ n ∈ (removeChildren (insertChild e i ns).2.1 i ns.length).1, n.parent = none) ∧
    ((removeChildren (insertChild e i ns).2.1 i ns.length).1.map (fun c => c.nid) =
      ns.map (fun c => c.nid)) ∧
    ((removeChildren (insertChild e i ns).2.1 i ns.length).2.1.children = e.children) := by
  unfold insertChild
  rw [insertLoop_spec e.eid ns e.children i 0 hi hfresh hnd]
  unfold removeChildren
  dsimp only
  have hA : (e.children.take i).length = i := by
    rw [List.length_take]
    exact Nat.min_eq_left hi
  have hAB : (e.children.take i ++ ns.map (setParent (some e.eid))).length = i + ns.length := by
    rw [List.length_append, hA, List.length_map]
  have hdrop : (e.children.take i ++ ns.map (setParent (some e.eid)) ++
      e.children.drop i).drop i =
      ns.map (setParent (some e.eid)) ++ e.children.drop i := by
    rw [List.append_assoc]
    exact List.drop_left' hA
  have htake : (e.children.take i ++ ns.map (setParent (some e.eid)) ++
      e.children.drop i).take i = e.children.take i := by
    rw [List.append_assoc]
    exact List.take_left' hA
  have hdrop2 : (e.children.take i ++ ns.map (setParent (some e.eid)) ++
      e.children.drop i).drop (i + ns.length) = e.children.drop i := by
    rw [show e.children.take i ++ ns.map (setParent (some e.eid)) ++ e.children.drop i =
      (e.children.take i ++ ns.map (setParent (some e.eid))) ++ e.children.drop i from rfl]
    exact List.drop_left' hAB
  have hrem : ((e.children.take i ++ ns.map (setParent (some e.eid)) ++
      e.children.drop i).drop i).take ns.length =
      ns.map (setParent (some e.eid)) := by
    rw [hdrop]
    exact List.take_left' (List.length_map ns _)
  refine ⟨Nat.zero_add ns.length, ?_, ?_, ?_, ?_⟩
  · rw [hrem, List.map_map]
    rfl
  · intro n hn
    rw [hrem, List.map_map] at hn
    rcases List.mem_map.mp hn with ⟨m, _, hm⟩
    rw [← hm]
    rfl
  · rw [hrem, List.map_map, List.map_map]
    rfl
  · rw [htake, hdrop2]
    exact List.take_append_drop i e.children

/-- Counterexample for C6 as stated: inserting a node that is already a
child of the element first detaches it, so after inserting and removing it
again the element's children differ from what they were before the
insertion. -/
theorem claim6_counterexample :
    ((removeChildren (insertChild
        { name := "div", attrs := [],
          children := [⟨0, some 7⟩, ⟨1, some 7⟩], eid := 7 }
        0 [⟨0, some 7⟩]).2.1 0 1).2.1.children ≠
      [({ nid := 0, parent := some 7 } : VNode), { nid := 1, parent := some 7 }]) ∧
    ((insertChild
        { name := "div", attrs := [],
          children := [⟨0, some 7⟩, ⟨1, some 7⟩], eid := 7 }
        0 [⟨0, some 7⟩]).1 = 1) := by decide

/-- Witness for the amended C6 at a concrete input: a detached node with a
fresh identity round-trips and the children are restored. -/
theorem claim6_witness :
    (removeChildren (insertChild
        { name := "div", attrs := [], children := [⟨0, some 7⟩], eid := 7 }
        1 [⟨5, none⟩]).2.1 1 1).2.1.children = [({ nid := 0, parent := some 7 } : VNode)] :=
  (claim6_insert_remove_roundtrip
    { name := "div", attrs := [], children := [⟨0, some 7⟩], eid := 7 }
    1 [⟨5, none⟩] (by decide) (by decide) (by decide)).2.2.2.2

theorem plainOrMixed_similar_eq {v w : AttrValue}
    (h : plainOrMixed v w valIsSimilar = true) : v = w := by
  cases v <;> cases w <;> simp_all [plainOrMixed, valIsSimilar]

theorem isSimilar_name_eq_perm {a b : Element}
    (ha : (a.attrs.map (fun p => p.1)).Nodup) (h : isSimilar a b = true) :
    a.name = b.name ∧ a.attrs.Perm b.attrs := by
  unfold isSimilar at h
  rw [Bool.and_eq_true, Bool.and_eq_true] at h
  obtain ⟨⟨hname, hlen⟩, hall⟩ := h
  refine ⟨beq_iff_eq.mp hname, ?_⟩
  have hsub : a.attrs ⊆ b.attrs := by
    intro p hp
    have h2 := List.all_eq_true.mp hall p hp
    generalize hw : mapGet b.attrs p.1 = o at h2
    cases o with
    | none => simp at h2
    | some w =>
      have hvw : p.2 = w := plainOrMixed_similar_eq h2
      have hmem := mapGet_mem hw
      rw [← hvw] at hmem
      exact hmem
  have hnda : a.attrs.Nodup := List.Nodup.of_map _ ha
  exact (List.subperm_of_subset hnda hsub).perm_of_length_le
    (le_of_eq (beq_iff_eq.mp hlen).symm)

theorem mapGet_eq_of_perm {α : Type} {m₁ m₂ : List (String × α)}
    (hp : m₁.Perm m₂) (hn : (m₁.map (fun p => p.1)).Nodup) (k : String) :
    mapGet m₁ k = mapGet m₂ k := by
  have hn2 : (m₂.map (fun p => p.1)).Nodup := ((hp.map (fun p => p.1)).nodup_iff).mp hn
  cases ho : mapGet m₁ k with
  | none =>
    have h1 := mapGet_eq_none_iff.mp ho
    symm
    rw [mapGet_eq_none_iff]
    intro hk
    exact h1 ((hp.map (fun p => p.1)).mem_iff.mpr hk)
  | some v =>
    have h1 := mapGet_mem ho
    exact (mapGet_of_mem hn2 (hp.mem_iff.mp h1)).symm

theorem getIdentity_congr {a b : Element} (hname : a.name = b.name)
    (hperm : a.attrs.Perm b.attrs) (ha : (a.attrs.map (fun p => p.1)).Nodup) :
    getIdentity a = getIdentity b := by
  have hget : ∀ k, mapGet a.attrs k = mapGet b.attrs k :=
    fun k => mapGet_eq_of_perm hperm ha k
  have hmap := (hperm.filter (fun p => p.1 ≠ "class" && p.1 ≠ "style")).map
    (fun p => p.1 ++ "=\"" ++ attrToString p.2 ++ "\"")
  simp only [getIdentity]
  rw [hname, hget "class", hget "style", sortStrings_perm_eq hmap]

/-- C2: two elements that are `isSimilar` produce identical `getIdentity`
strings (classes sorted, styles in canonical form, remaining attributes
sorted by their rendered form). -/
theorem claim2_isSimilar_getIdentity (a b : Element)
    (ha : (a.attrs.map (fun p => p.1)).Nodup) (hb : (b.attrs.map (fun p => p.1)).Nodup)
    (h : isSimilar a b = true) : getIdentity a = getIdentity b := by
  obtain ⟨hname, hperm⟩ := isSimilar_name_eq_perm ha h
  exact getIdentity_congr hname hperm ha

/-- Witness for C2 at concrete inputs: two elements with the same
attributes stored in different insertion order are similar and get the
same identity string. -/
theorem claim2_witness :
    (isSimilar
      { name := "p", attrs := [("class", AttrValue.tokens ["b", "a"]), ("x", AttrValue.str "1")],
        children := [], eid := 0 }
      { name := "p", attrs := [("x", AttrValue.str "1"), ("class", AttrValue.tokens ["b", "a"])],
        children := [], eid := 1 } = true) ∧
    getIdentity
      { name := "p", attrs := [("class", AttrValue.tokens ["b", "a"]), ("x", AttrValue.str "1")],
        children := [], eid := 0 } =
    getIdentity
      { name := "p", attrs := [("x", AttrValue.str "1"), ("class", AttrValue.tokens ["b", "a"])],
        children := [], eid := 1 } :=
  ⟨by decide, claim2_isSimilar_getIdentity
    { name := "p", attrs := [("class", AttrValue.tokens ["b", "a"]), ("x", AttrValue.str "1")],
      children := [], eid := 0 }
    { name := "p", attrs := [("x", AttrValue.str "1"), ("class", AttrValue.tokens ["b", "a"])],
      children := [], eid := 1 }
    (by decide) (by decide) (by decide)⟩

end CkView
